import Mathlib

/-!
Verification development for the FedEx-Streamlit-App dashboard (`App.py`).

The script reads an uploaded CSV into a dataframe, parses the two date
columns, derives a `delivery_delay` column (whole days) and a `Delay Label`
column, and renders one of four pages; two pages aggregate the table by a
categorical dimension (vendor / manager) with mean metrics, sorted by mean
delay descending, truncated to ten groups.

The embedding below models:
  * cells of a dataframe (`Cell`): missing values (pandas `NaN`/`NaT`),
    strings, parsed dates (as a day ordinal), integers and rationals
    (pandas floats are modelled exactly as rationals);
  * rows as association lists from column names to cells, tables as a
    column-name list plus a row list;
  * `pd.to_datetime` on a CSV-read date column: string cells in ISO
    `YYYY-MM-DD` form parse to a day ordinal, missing cells pass through
    as `NaT`, anything else raises; a raised parse error aborts the run;
  * the feature-engineering block, the groupby/mean/sort/head aggregation,
    and the page-rendering control flow of the script, where everything a
    run displays (titles, markdown, charts, warnings, error boxes, raised
    exceptions) is collected in order into a list of render items and a
    raised exception truncates the list.
-/

/-- Model of a dataframe cell: missing value (`NaN`/`NaT`), string, parsed
datetime (day ordinal), integer, or rational number (exact model of a
pandas float). -/
inductive Cell where
  | na
  | str (s : String)
  | date (d : Int)
  | int (n : Int)
  | num (q : Rat)
deriving DecidableEq, Repr

/-- Errors of the read-and-feature-engineer block: a required date column
absent (`st.error` + `st.stop`), or `pd.to_datetime` raising on an
unparseable date value. -/
inductive AppError where
  | missingColumn (c : String)
  | dateParse (v : String)
deriving DecidableEq, Repr

/-- Exceptions raised while building a chart or an aggregation: a column
name that is not in the dataframe (plotly `ValueError` / pandas
`KeyError`). -/
inductive PyExn where
  | colNotFound (c : String)
  | badDateValue (v : String)
deriving DecidableEq, Repr

/- ### Dates

`pd.to_datetime` on a CSV-read date column sees strings (or missing
values).  We model the ISO `YYYY-MM-DD` format, mapping a valid civil date
to its day ordinal in the proleptic Gregorian calendar, so that the
difference of two ordinals is the whole-day difference `.dt.days`
computes. -/

def isLeap (y : Nat) : Bool :=
  (y % 4 == 0 && y % 100 != 0) || y % 400 == 0

def monthLen (y m : Nat) : Nat :=
  if m = 2 then (if isLeap y then 29 else 28)
  else if m = 4 ∨ m = 6 ∨ m = 9 ∨ m = 11 then 30
  else 31

/-- Days in the months of year `y` strictly before month `m`. -/
def daysBeforeMonth (y m : Nat) : Nat :=
  (List.range (m - 1)).foldl (fun acc i => acc + monthLen y (i + 1)) 0

/-- Days in the years strictly before year `y` (proleptic Gregorian). -/
def daysBeforeYear (y : Nat) : Nat :=
  365 * (y - 1) + (y - 1) / 4 + (y - 1) / 400 - (y - 1) / 100

/-- Day ordinal of the civil date `y-m-d`. -/
def ordinalOf (y m d : Nat) : Int :=
  Int.ofNat (daysBeforeYear y + daysBeforeMonth y m + (d - 1))

/-- Splits a character list into the maximal runs separated by dashes. -/
def splitDash : List Char → List (List Char)
  | [] => [[]]
  | ch :: rest =>
      if ch = '-' then [] :: splitDash rest
      else
        match splitDash rest with
        | [] => [[ch]]
        | g :: gs => (ch :: g) :: gs

/-- Reads a non-empty all-digit character run as a natural number. -/
def digitsToNat? (cs : List Char) : Option Nat :=
  if cs.length > 0 && cs.all Char.isDigit then
    some (cs.foldl (fun n ch => 10 * n + (ch.toNat - 48)) 0)
  else none

/-- Parses an ISO `YYYY-MM-DD` date string to its day ordinal; `none` on
any malformed or out-of-range component (the model of `pd.to_datetime`
raising on the value). -/
def parseDate (s : String) : Option Int :=
  match splitDash s.toList with
  | [ys, ms, ds] =>
    match digitsToNat? ys, digitsToNat? ms, digitsToNat? ds with
    | some y, some m, some d =>
        if ys.length = 4 ∧ ms.length = 2 ∧ ds.length = 2 ∧
           1 ≤ m ∧ m ≤ 12 ∧ 1 ≤ d ∧ d ≤ monthLen y m then
          some (ordinalOf y m d)
        else none
    | _, _, _ => none
  | _ => none

/- ### Rows and tables -/

/-- A dataframe row: an association list from column names to cells. -/
abbrev Row : Type := List (String × Cell)

/-- Value of column `c` in row `r`; a column with no binding reads as a
missing value, like a reindexed pandas row. -/
def Row.get : Row → String → Cell
  | [], _ => Cell.na
  | (c0, v) :: r, c => if c0 = c then v else Row.get r c

/-- Does row `r` carry a binding for column `c`? -/
def Row.has : Row → String → Bool
  | [], _ => false
  | (c0, _) :: r, c => if c0 = c then true else Row.has r c

/-- Replaces every binding of column `c` by `v` (no insertion). -/
def Row.setIn : Row → String → Cell → Row
  | [], _, _ => []
  | (c0, v0) :: r, c, v =>
      if c0 = c then (c, v) :: Row.setIn r c v
      else (c0, v0) :: Row.setIn r c v

/-- Column assignment `row[c] = v`: overwrite in place when the column
exists, append it otherwise. -/
def Row.set (r : Row) (c : String) (v : Cell) : Row :=
  if Row.has r c then Row.setIn r c v else r ++ [(c, v)]

/-- A dataframe: its column labels and its rows. -/
structure Table where
  cols : List String
  rows : List Row
deriving DecidableEq, Repr

deriving instance DecidableEq for Except

/-- Membership test `c in df.columns`. -/
def Table.hasCol (t : Table) (c : String) : Bool :=
  decide (c ∈ t.cols)

/-- Column labels after the assignment `df[c] = ...`: unchanged when the
column exists, appended otherwise. -/
def addCol (cs : List String) (c : String) : List String :=
  if c ∈ cs then cs else cs ++ [c]

/-- Whole-column assignment `df[c] = f(row)` applied rowwise. -/
def Table.setCol (t : Table) (c : String) (f : Row → Cell) : Table :=
  ⟨addCol t.cols c, t.rows.map (fun r => Row.set r c (f r))⟩

/- ### Feature engineering (`App.py` lines 29-38) -/

def delivCol : String := "Delivered to Client Date"
def schedCol : String := "Scheduled Delivery Date"

/-- The action of `pd.to_datetime` on one cell of a CSV-read date column:
already-parsed datetimes and missing values (`NaT`) pass through, ISO date
strings parse, and everything else fails (`none` models the raise). -/
def toDatetime? : Cell → Option Cell
  | Cell.na => some Cell.na
  | Cell.date d => some (Cell.date d)
  | Cell.str s => (parseDate s).map Cell.date
  | Cell.int _ => none
  | Cell.num _ => none

/-- Printable form of a cell, used in the raised parse-error payload. -/
def cellText : Cell → String
  | Cell.na => "NaT"
  | Cell.str s => s
  | Cell.date d => toString d
  | Cell.int n => toString n
  | Cell.num q => toString q

/-- Detects a cell `pd.to_datetime` would raise on, with its payload. -/
def badCell? (c : Cell) : Option String :=
  match toDatetime? c with
  | some _ => none
  | none => some (cellText c)

/-- Rowwise effect of `df[c] = pd.to_datetime(df[c])` once no cell of the
column raises. -/
def rowParse (c : String) (r : Row) : Row :=
  Row.set r c ((toDatetime? (Row.get r c)).getD Cell.na)

/-- One iteration of the date-column loop (`App.py` lines 29-34): check the
column exists (else `st.error` + `st.stop`), then parse it in place,
raising on the first unparseable value. -/
def parseCol (t : Table) (c : String) : Except AppError Table :=
  if Table.hasCol t c = true then
    match t.rows.findSome? (fun r => badCell? (Row.get r c)) with
    | some v => Except.error (AppError.dateParse v)
    | none => Except.ok ⟨t.cols, t.rows.map (rowParse c)⟩
  else Except.error (AppError.missingColumn c)

/-- Model of `(delivered - scheduled).dt.days` on one row: the exact day
difference when both dates are present, `NaN` when either is `NaT`. -/
def subDays : Cell → Cell → Cell
  | Cell.date a, Cell.date b => Cell.int (a - b)
  | _, _ => Cell.na

/-- Model of the comparison `d <= 0` in the labelling lambda, with pandas
semantics: comparing `NaN` (or a non-number) to `0` is `False`. -/
def cellLe0 : Cell → Bool
  | Cell.int n => decide (n ≤ 0)
  | Cell.num q => decide (q ≤ 0)
  | _ => false

/-- The labelling lambda of `App.py` line 38. -/
def labelOf (c : Cell) : String :=
  if cellLe0 c then "Early/On-Time" else "Delayed"

/-- Rowwise effect of `App.py` line 37 (the `delivery_delay` column). -/
def rowDelay (r : Row) : Row :=
  Row.set r "delivery_delay" (subDays (Row.get r delivCol) (Row.get r schedCol))

/-- Rowwise effect of `App.py` line 38 (the `Delay Label` column). -/
def rowLabel (r : Row) : Row :=
  Row.set r "Delay Label" (Cell.str (labelOf (Row.get r "delivery_delay")))

/-- The full read-and-feature-engineer block (`App.py` lines 29-38): parse
both date columns in order, then derive `delivery_delay` and
`Delay Label`. -/
def featureEngineer (t : Table) : Except AppError Table :=
  match parseCol t delivCol with
  | Except.error e => Except.error e
  | Except.ok t1 =>
    match parseCol t1 schedCol with
    | Except.error e => Except.error e
    | Except.ok t2 =>
        let t3 := Table.setCol t2 "delivery_delay"
          (fun r => subDays (Row.get r delivCol) (Row.get r schedCol))
        Except.ok (Table.setCol t3 "Delay Label"
          (fun r => Cell.str (labelOf (Row.get r "delivery_delay"))))

/-- Composite rowwise effect of the whole feature-engineering block on a
successful run. -/
def engRow (r : Row) : Row :=
  rowLabel (rowDelay (rowParse schedCol (rowParse delivCol r)))

/- ### Aggregation (`App.py` lines 99-106 and 118-125)

`df.groupby(dim)[metrics].mean().sort_values("delivery_delay",
ascending=False).head(10)`: group the rows by the dimension column
(missing keys dropped, as pandas `dropna=True` does), take the `NaN`-
skipping arithmetic mean of each metric in each group, sort the groups by
mean delay descending (`NaN` means last, pandas `na_position` default),
keep the first ten. -/

/-- Numeric reading of a cell for `mean()`: integers and floats count,
anything else is skipped like a missing value. -/
def toRat? : Cell → Option Rat
  | Cell.int n => some (n : Rat)
  | Cell.num q => some q
  | _ => none

/-- The pandas column mean: arithmetic mean of the numeric cells, `NaN`
(here `none`) when there are none. -/
def meanCells (cs : List Cell) : Option Rat :=
  let vs := cs.filterMap toRat?
  if vs.length = 0 then none else some (vs.sum / (vs.length : Rat))

/-- Distinct non-missing group keys of a cell list (pandas `groupby`
drops missing keys). -/
def keyList : List Cell → List Cell
  | [] => []
  | c :: rest =>
      if c = Cell.na then keyList rest
      else if c ∈ keyList rest then keyList rest else c :: keyList rest

/-- One output row of the groupby/mean aggregation. -/
structure GroupRow where
  key : Cell
  delay : Option Rat
  packPrice : Option Rat
  lineItemValue : Option Rat
deriving DecidableEq, Repr

/-- The rows of `t` whose `dim` column holds the key `k`. -/
def dimRows (t : Table) (dim : String) (k : Cell) : List Row :=
  t.rows.filter (fun r => decide (Row.get r dim = k))

/-- The aggregated row of group `k`: mean of each metric over the group. -/
def mkGroup (t : Table) (dim : String) (k : Cell) : GroupRow :=
  { key := k
    delay := meanCells ((dimRows t dim k).map (fun r => Row.get r "delivery_delay"))
    packPrice := meanCells ((dimRows t dim k).map (fun r => Row.get r "Pack Price"))
    lineItemValue := meanCells ((dimRows t dim k).map (fun r => Row.get r "Line Item Value")) }

/-- Descending comparison on optional means, missing means last (pandas
`sort_values(ascending=False)` with the default `na_position`). -/
def optGe : Option Rat → Option Rat → Bool
  | some a, some b => decide (b ≤ a)
  | some _, none => true
  | none, some _ => false
  | none, none => true

/-- Order in which the aggregation emits its groups: mean delay
descending, missing means last. -/
def gOrd (a b : GroupRow) : Prop :=
  optGe a.delay b.delay = true

instance : DecidableRel gOrd :=
  fun a b => instDecidableEqBool (optGe a.delay b.delay) true

instance : IsTotal GroupRow gOrd where
  total a b := by
    unfold gOrd
    cases ha : a.delay <;> cases hb : b.delay <;> simp [optGe]
    exact le_total _ _

instance : IsTrans GroupRow gOrd where
  trans a b c hab hbc := by
    unfold gOrd at *
    cases ha : a.delay <;> cases hb : b.delay <;> cases hc : c.delay <;>
      simp_all [optGe]
    exact le_trans hbc hab

/-- The metric columns selected by the aggregation (`App.py` line 101). -/
def metricCols : List String := ["delivery_delay", "Pack Price", "Line Item Value"]

/-- The full aggregation `groupby(dim)[metrics].mean().sort_values(
"delivery_delay", ascending=False).head(10)`; raises a `KeyError` when the
dimension or a metric column is absent. -/
def topByDelay (t : Table) (dim : String) : Except PyExn (List GroupRow) :=
  if Table.hasCol t dim = false then Except.error (PyExn.colNotFound dim)
  else
    match metricCols.find? (fun m => Table.hasCol t m = false) with
    | some m => Except.error (PyExn.colNotFound m)
    | none =>
        let keys := keyList (t.rows.map (fun r => Row.get r dim))
        Except.ok (List.take 10 (List.insertionSort gOrd (keys.map (mkGroup t dim))))

/- ### Charts and rendering

Every call the script makes into Streamlit displays something: we collect
what a run displays, in order, into a list of render items.  A raised
exception (plotly `ValueError` / pandas `KeyError` / `pd.to_datetime`
failure) aborts the script, so it ends the list. -/

/-- A configured chart: a box plot over the table (x, y and optional
color columns) or a grouped bar chart over an aggregation result. -/
inductive Chart where
  | box (x y : String) (color : Option String) (data : Table)
  | bar (dim : String) (data : List GroupRow)
deriving DecidableEq, Repr

/-- One thing a run displays: a title, markdown text, a chart, a warning
box, an error box, or the traceback of a raised exception. -/
inductive RItem where
  | title (s : String)
  | markdown (s : String)
  | chart (c : Chart)
  | warning (s : String)
  | errorBox (s : String)
  | exn (e : PyExn)
deriving DecidableEq, Repr

/-- Is the item a chart? -/
def isChart : RItem → Bool
  | RItem.chart _ => true
  | _ => false

/-- Model of `px.box`: the named x, y and color columns must exist in the
dataframe, else a `ValueError` naming the absent column is raised. -/
def pxBox (t : Table) (x y : String) (color : Option String) : Except PyExn Chart :=
  if Table.hasCol t x = false then Except.error (PyExn.colNotFound x)
  else if Table.hasCol t y = false then Except.error (PyExn.colNotFound y)
  else
    match color with
    | some c =>
        if Table.hasCol t c = false then Except.error (PyExn.colNotFound c)
        else Except.ok (Chart.box x y color t)
    | none => Except.ok (Chart.box x y none t)

/-- Sequences statement blocks that can raise: the items of each block are
emitted in order until a block raises, whose traceback ends the run. -/
def blocks : List (Except PyExn (List RItem)) → List RItem
  | [] => []
  | Except.error e :: _ => [RItem.exn e]
  | Except.ok xs :: rest => xs ++ blocks rest

/-- Build-and-show of one chart (`px.box`/`px.bar` + `st.plotly_chart`). -/
def chartBlock (e : Except PyExn Chart) : Except PyExn (List RItem) :=
  e.map (fun c => [RItem.chart c])

/-- The upload warning shown by the two data-driven pages. -/
def uploadWarn : String := "➡️ Please upload a dataset to view this analysis."

/-- Stands for the static markdown body of the Welcome page. -/
def welcomeMd : String := "Why this app?"

/-- Stands for the markdown line of the Delay & Pricing Patterns page. -/
def kpiMd : String := "Focus KPIs: Delivery Delay, Pack Price, Line Item Value vs Delay Status."

/-- Stands for the markdown line of the Top Contributors page. -/
def contribMd : String := "Which vendors, managers, and shipment modes contribute most to delays and pricing issues?"

/-- Stands for the static markdown body of the Conclusion page. -/
def conclusionMd : String := "Key Findings"

/-- The Welcome page (`App.py` lines 45-59): static text only. -/
def welcomeItems : List RItem :=
  [RItem.title "🚚 Supply Chain Delay & Pricing Analysis", RItem.markdown welcomeMd]

/-- The Conclusion page (`App.py` lines 140-159): static text only. -/
def conclusionItems : List RItem :=
  [RItem.title "Conclusion & Insights", RItem.markdown conclusionMd]

/-- The guarded Pack Price box plot (`App.py` lines 78-81): built only
when the `Shipment Mode` column exists. -/
def packBlock (t : Table) : Except PyExn (List RItem) :=
  if Table.hasCol t "Shipment Mode" = true then
    chartBlock (pxBox t "Shipment Mode" "Pack Price" (some "Delay Label"))
  else Except.ok []

/-- The Delay & Pricing Patterns page (`App.py` lines 64-85): title, then
warning-and-stop without a dataset; otherwise the delay box plot, the
guarded Pack Price box plot, and the unguarded Line Item Value box
plot. -/
def delayPricingItems (df : Option Table) : List RItem :=
  RItem.title "Delay & Pricing Patterns" ::
  match df with
  | none => [RItem.warning uploadWarn]
  | some t =>
      RItem.markdown kpiMd ::
      blocks [chartBlock (pxBox t "Delay Label" "delivery_delay" none),
              packBlock t,
              chartBlock (pxBox t "Delay Label" "Line Item Value" (some "Delay Label"))]

/-- The guarded vendor aggregation and bar chart (`App.py` lines
99-116). -/
def vendorBlock (t : Table) : Except PyExn (List RItem) :=
  if Table.hasCol t "Vendor" = true then
    (topByDelay t "Vendor").map (fun gs => [RItem.chart (Chart.bar "Vendor" gs)])
  else Except.ok []

/-- The guarded manager aggregation and bar chart (`App.py` lines
118-135). -/
def managerBlock (t : Table) : Except PyExn (List RItem) :=
  if Table.hasCol t "Managed By" = true then
    (topByDelay t "Managed By").map (fun gs => [RItem.chart (Chart.bar "Managed By" gs)])
  else Except.ok []

/-- The Top Contributors page (`App.py` lines 90-135): title, then
warning-and-stop without a dataset; otherwise the two guarded grouped bar
charts. -/
def topContribItems (df : Option Table) : List RItem :=
  RItem.title "Top Contributors to Delay & Cost" ::
  match df with
  | none => [RItem.warning uploadWarn]
  | some t =>
      RItem.markdown contribMd :: blocks [vendorBlock t, managerBlock t]

/-- The four page conditionals (`App.py` lines 45, 64, 90, 140): each
block runs exactly when the selected page matches its name. -/
def pageItems (page : String) (df : Option Table) : List RItem :=
  (if page = "Welcome" then welcomeItems else []) ++
  (if page = "Delay & Pricing Patterns" then delayPricingItems df else []) ++
  (if page = "Top Contributors" then topContribItems df else []) ++
  (if page = "Conclusion & Insights" then conclusionItems else [])

/-- What a halted feature-engineering run displays: the `st.error` box for
a missing column, the raised traceback for an unparseable date. -/
def appHalt : AppError → RItem
  | AppError.missingColumn c => RItem.errorBox (String.append "❌ Missing column: " c)
  | AppError.dateParse v => RItem.exn (PyExn.badDateValue v)

/-- One full script run (`App.py`): read and feature-engineer the upload
when present (halting the render on error), then render the selected
page. -/
def runApp (page : String) (file : Option Table) : List RItem :=
  match file with
  | some t =>
      match featureEngineer t with
      | Except.error e => [appHalt e]
      | Except.ok t1 => pageItems page (some t1)
  | none => pageItems page none

/- ### Row lemmas -/

theorem Row.get_of_has_false (r : Row) (c : String)
    (h : Row.has r c = false) : Row.get r c = Cell.na := by
  induction r with
  | nil => simp [Row.get]
  | cons p r ih =>
      obtain ⟨c0, v0⟩ := p
      by_cases hc : c0 = c
      · simp [Row.has, hc] at h
      · simp only [Row.has, if_neg hc] at h
        simp [Row.get, hc, ih h]

theorem Row.get_append (r1 r2 : Row) (c : String) :
    Row.get (r1 ++ r2) c = if Row.has r1 c then Row.get r1 c else Row.get r2 c := by
  induction r1 with
  | nil => simp [Row.get, Row.has]
  | cons p r ih =>
      obtain ⟨c0, v0⟩ := p
      by_cases h : c0 = c <;> simp [Row.get, Row.has, h, ih]

theorem Row.get_setIn_same (r : Row) (c : String) (v : Cell)
    (h : Row.has r c = true) : Row.get (Row.setIn r c v) c = v := by
  induction r with
  | nil => simp [Row.has] at h
  | cons p r ih =>
      obtain ⟨c0, v0⟩ := p
      by_cases hc : c0 = c
      · simp [Row.setIn, hc, Row.get]
      · simp only [Row.has, if_neg hc] at h
        simp [Row.setIn, hc, Row.get, ih h]

theorem Row.get_setIn_ne (r : Row) (c c' : String) (v : Cell)
    (h : c' ≠ c) : Row.get (Row.setIn r c v) c' = Row.get r c' := by
  induction r with
  | nil => simp [Row.setIn]
  | cons p r ih =>
      obtain ⟨c0, v0⟩ := p
      by_cases hc : c0 = c
      · subst hc
        simp [Row.setIn, Row.get, Ne.symm h, ih]
      · simp [Row.setIn, hc, Row.get, ih]

theorem Row.has_setIn (r : Row) (c c' : String) (v : Cell) :
    Row.has (Row.setIn r c v) c' = Row.has r c' := by
  induction r with
  | nil => simp [Row.setIn]
  | cons p r ih =>
      obtain ⟨c0, v0⟩ := p
      by_cases hc : c0 = c
      · subst hc
        simp [Row.setIn, Row.has, ih]
      · simp [Row.setIn, hc, Row.has, ih]

theorem Row.has_append (r1 r2 : Row) (c : String) :
    Row.has (r1 ++ r2) c = (Row.has r1 c || Row.has r2 c) := by
  induction r1 with
  | nil => simp [Row.has]
  | cons p r ih =>
      obtain ⟨c0, v0⟩ := p
      by_cases h : c0 = c <;> simp [Row.has, h, ih]

theorem Row.get_set_same (r : Row) (c : String) (v : Cell) :
    Row.get (Row.set r c v) c = v := by
  unfold Row.set
  by_cases h : Row.has r c = true
  · rw [if_pos h]
    exact Row.get_setIn_same r c v h
  · rw [if_neg h]
    simp only [Bool.not_eq_true] at h
    rw [Row.get_append]
    simp [h, Row.get]

theorem Row.get_set_ne (r : Row) (c c' : String) (v : Cell) (h : c' ≠ c) :
    Row.get (Row.set r c v) c' = Row.get r c' := by
  unfold Row.set
  by_cases hh : Row.has r c = true
  · rw [if_pos hh]
    exact Row.get_setIn_ne r c c' v h
  · rw [if_neg hh, Row.get_append]
    by_cases hg : Row.has r c' = true
    · simp [hg]
    · simp only [Bool.not_eq_true] at hg
      simp [hg, Row.get, Ne.symm h, Row.get_of_has_false r c' hg]

theorem Row.has_set_same (r : Row) (c : String) (v : Cell) :
    Row.has (Row.set r c v) c = true := by
  unfold Row.set
  by_cases h : Row.has r c = true
  · rw [if_pos h, Row.has_setIn]
    exact h
  · rw [if_neg h, Row.has_append]
    simp [Row.has]

theorem Row.has_set_ne (r : Row) (c c' : String) (v : Cell) (h : c' ≠ c) :
    Row.has (Row.set r c v) c' = Row.has r c' := by
  unfold Row.set
  by_cases hh : Row.has r c = true
  · rw [if_pos hh]
    exact Row.has_setIn r c c' v
  · rw [if_neg hh, Row.has_append]
    simp [Row.has, Ne.symm h]

theorem Row.has_eq_false_iff (r : Row) (c : String) :
    Row.has r c = false ↔ ∀ p ∈ r, p.1 ≠ c := by
  induction r with
  | nil => simp [Row.has]
  | cons p r ih =>
      obtain ⟨c0, v0⟩ := p
      by_cases h : c0 = c <;> simp [Row.has, h, ih]

theorem Row.mem_setIn (r : Row) (c : String) (v : Cell) (p : String × Cell)
    (h : p ∈ Row.setIn r c v) : p = (c, v) ∨ (p ∈ r ∧ p.1 ≠ c) := by
  induction r with
  | nil => simp [Row.setIn] at h
  | cons q r ih =>
      obtain ⟨c0, v0⟩ := q
      by_cases hc : c0 = c
      · subst hc
        rw [show Row.setIn ((c0, v0) :: r) c0 v = (c0, v) :: Row.setIn r c0 v by
              simp [Row.setIn]] at h
        rw [List.mem_cons] at h
        rcases h with h | h
        · exact Or.inl h
        · rcases ih h with h' | h'
          · exact Or.inl h'
          · exact Or.inr ⟨List.mem_cons_of_mem _ h'.1, h'.2⟩
      · rw [show Row.setIn ((c0, v0) :: r) c v = (c0, v0) :: Row.setIn r c v by
              simp [Row.setIn, hc]] at h
        rw [List.mem_cons] at h
        rcases h with h | h
        · subst h
          exact Or.inr ⟨List.mem_cons_self _ _, hc⟩
        · rcases ih h with h' | h'
          · exact Or.inl h'
          · exact Or.inr ⟨List.mem_cons_of_mem _ h'.1, h'.2⟩

/-- A row is `c`-uniform at `v` when it binds `c` and every binding of `c`
holds `v`.  Rows produced by a column assignment are uniform at the
assigned column, which is what makes re-assignment a no-op. -/
def Row.uniform (r : Row) (c : String) (v : Cell) : Prop :=
  Row.has r c = true ∧ ∀ p ∈ r, p.1 = c → p.2 = v

theorem Row.setIn_of_uniform (r : Row) (c : String) (v : Cell)
    (h : ∀ p ∈ r, p.1 = c → p.2 = v) : Row.setIn r c v = r := by
  induction r with
  | nil => simp [Row.setIn]
  | cons q r ih =>
      obtain ⟨c0, v0⟩ := q
      by_cases hc : c0 = c
      · subst hc
        have hv : v0 = v := h (c0, v0) (List.mem_cons_self _ _) rfl
        rw [show Row.setIn ((c0, v0) :: r) c0 v = (c0, v) :: Row.setIn r c0 v by
              simp [Row.setIn]]
        rw [ih (fun p hp => h p (List.mem_cons_of_mem _ hp)), hv]
      · rw [show Row.setIn ((c0, v0) :: r) c v = (c0, v0) :: Row.setIn r c v by
              simp [Row.setIn, hc]]
        rw [ih (fun p hp => h p (List.mem_cons_of_mem _ hp))]

theorem Row.set_of_uniform (r : Row) (c : String) (v : Cell)
    (h : Row.uniform r c v) : Row.set r c v = r := by
  unfold Row.set
  rw [if_pos h.1, Row.setIn_of_uniform r c v h.2]

theorem Row.uniform_set (r : Row) (c : String) (v : Cell) :
    Row.uniform (Row.set r c v) c v := by
  refine ⟨Row.has_set_same r c v, ?_⟩
  intro p hp hpc
  unfold Row.set at hp
  by_cases hh : Row.has r c = true
  · rw [if_pos hh] at hp
    rcases Row.mem_setIn r c v p hp with h' | h'
    · rw [h']
    · exact absurd hpc h'.2
  · simp only [hh, Bool.false_eq_true, if_false] at hp
    rw [List.mem_append] at hp
    rcases hp with h' | h'
    · simp only [Bool.not_eq_true] at hh
      exact absurd hpc ((Row.has_eq_false_iff r c).1 hh p h')
    · simp only [List.mem_singleton] at h'
      rw [h']

theorem Row.uniform_set_ne (r : Row) (c c' : String) (v w : Cell)
    (hne : c ≠ c') (h : Row.uniform r c v) : Row.uniform (Row.set r c' w) c v := by
  refine ⟨by rw [Row.has_set_ne r c' c w hne]; exact h.1, ?_⟩
  intro p hp hpc
  unfold Row.set at hp
  by_cases hh : Row.has r c' = true
  · rw [if_pos hh] at hp
    rcases Row.mem_setIn r c' w p hp with h' | h'
    · rw [h'] at hpc
      exact absurd hpc.symm hne
    · exact h.2 p h'.1 hpc
  · simp only [hh, Bool.false_eq_true, if_false] at hp
    rw [List.mem_append] at hp
    rcases hp with h' | h'
    · exact h.2 p h' hpc
    · simp only [List.mem_singleton] at h'
      rw [h'] at hpc
      exact absurd hpc.symm hne

/- ### Feature-engineering lemmas -/

theorem delivCol_ne_schedCol : delivCol ≠ schedCol := by decide

theorem delay_ne_delivCol : "delivery_delay" ≠ delivCol := by decide

theorem delay_ne_schedCol : "delivery_delay" ≠ schedCol := by decide

theorem label_ne_delivCol : "Delay Label" ≠ delivCol := by decide

theorem label_ne_schedCol : "Delay Label" ≠ schedCol := by decide

theorem label_ne_delay : "Delay Label" ≠ "delivery_delay" := by decide

/-- Parsed date cells are fixed points of the parser. -/
theorem toDatetime?_getD (c : Cell) :
    toDatetime? ((toDatetime? c).getD Cell.na) = some ((toDatetime? c).getD Cell.na) := by
  cases c with
  | na => rfl
  | date d => rfl
  | str s =>
      cases h : parseDate s with
      | none => simp [toDatetime?, h]
      | some d => simp [toDatetime?, h]
  | int n => rfl
  | num q => rfl

/-- The raw delivered-date value a successful parse installs in a row. -/
def pdv (r : Row) : Cell := (toDatetime? (Row.get r delivCol)).getD Cell.na

/-- The raw scheduled-date value a successful parse installs in a row. -/
def psv (r : Row) : Cell := (toDatetime? (Row.get r schedCol)).getD Cell.na

theorem get_engRow_deliv (r : Row) : Row.get (engRow r) delivCol = pdv r := by
  simp [engRow, rowLabel, rowDelay, rowParse, pdv, psv,
        Row.get_set_same, Row.get_set_ne,
        delivCol_ne_schedCol, Ne.symm delivCol_ne_schedCol,
        delay_ne_delivCol, Ne.symm delay_ne_delivCol,
        delay_ne_schedCol, Ne.symm delay_ne_schedCol,
        label_ne_delivCol, Ne.symm label_ne_delivCol,
        label_ne_schedCol, Ne.symm label_ne_schedCol,
        label_ne_delay, Ne.symm label_ne_delay]

theorem get_engRow_sched (r : Row) : Row.get (engRow r) schedCol = psv r := by
  simp [engRow, rowLabel, rowDelay, rowParse, pdv, psv,
        Row.get_set_same, Row.get_set_ne,
        delivCol_ne_schedCol, Ne.symm delivCol_ne_schedCol,
        delay_ne_delivCol, Ne.symm delay_ne_delivCol,
        delay_ne_schedCol, Ne.symm delay_ne_schedCol,
        label_ne_delivCol, Ne.symm label_ne_delivCol,
        label_ne_schedCol, Ne.symm label_ne_schedCol,
        label_ne_delay, Ne.symm label_ne_delay]

theorem get_engRow_delay (r : Row) :
    Row.get (engRow r) "delivery_delay" = subDays (pdv r) (psv r) := by
  simp [engRow, rowLabel, rowDelay, rowParse, pdv, psv,
        Row.get_set_same, Row.get_set_ne,
        delivCol_ne_schedCol, Ne.symm delivCol_ne_schedCol,
        delay_ne_delivCol, Ne.symm delay_ne_delivCol,
        delay_ne_schedCol, Ne.symm delay_ne_schedCol,
        label_ne_delivCol, Ne.symm label_ne_delivCol,
        label_ne_schedCol, Ne.symm label_ne_schedCol,
        label_ne_delay, Ne.symm label_ne_delay]

theorem get_engRow_label (r : Row) :
    Row.get (engRow r) "Delay Label" =
      Cell.str (labelOf (subDays (pdv r) (psv r))) := by
  simp [engRow, rowLabel, rowDelay, rowParse, pdv, psv,
        Row.get_set_same, Row.get_set_ne,
        delivCol_ne_schedCol, Ne.symm delivCol_ne_schedCol,
        delay_ne_delivCol, Ne.symm delay_ne_delivCol,
        delay_ne_schedCol, Ne.symm delay_ne_schedCol,
        label_ne_delivCol, Ne.symm label_ne_delivCol,
        label_ne_schedCol, Ne.symm label_ne_schedCol,
        label_ne_delay, Ne.symm label_ne_delay]

theorem uniform_engRow_deliv (r : Row) : Row.uniform (engRow r) delivCol (pdv r) := by
  unfold engRow rowLabel rowDelay rowParse
  apply Row.uniform_set_ne _ _ _ _ _ (by decide : delivCol ≠ "Delay Label")
  apply Row.uniform_set_ne _ _ _ _ _ (by decide : delivCol ≠ "delivery_delay")
  apply Row.uniform_set_ne _ _ _ _ _ (by decide : delivCol ≠ schedCol)
  exact Row.uniform_set r delivCol (pdv r)

theorem uniform_engRow_sched (r : Row) : Row.uniform (engRow r) schedCol (psv r) := by
  unfold engRow rowLabel rowDelay rowParse psv
  apply Row.uniform_set_ne _ _ _ _ _ (by decide : schedCol ≠ "Delay Label")
  apply Row.uniform_set_ne _ _ _ _ _ (by decide : schedCol ≠ "delivery_delay")
  rw [Row.get_set_ne _ _ _ _ (by decide : schedCol ≠ delivCol)]
  exact Row.uniform_set _ _ _

theorem uniform_engRow_delay (r : Row) :
    Row.uniform (engRow r) "delivery_delay" (subDays (pdv r) (psv r)) := by
  unfold engRow rowLabel
  apply Row.uniform_set_ne _ _ _ _ _ (by decide : "delivery_delay" ≠ "Delay Label")
  have heq : Row.get (rowParse schedCol (rowParse delivCol r)) delivCol = pdv r := by
    simp [rowParse, pdv, Row.get_set_same, Row.get_set_ne,
          delivCol_ne_schedCol, Ne.symm delivCol_ne_schedCol]
  have heq2 : Row.get (rowParse schedCol (rowParse delivCol r)) schedCol = psv r := by
    simp [rowParse, psv, Row.get_set_same, Row.get_set_ne,
          delivCol_ne_schedCol, Ne.symm delivCol_ne_schedCol]
  unfold rowDelay
  rw [heq, heq2]
  exact Row.uniform_set _ _ _

theorem uniform_engRow_label (r : Row) :
    Row.uniform (engRow r) "Delay Label"
      (Cell.str (labelOf (subDays (pdv r) (psv r)))) := by
  unfold engRow rowLabel
  have heq : Row.get (rowDelay (rowParse schedCol (rowParse delivCol r)))
      "delivery_delay" = subDays (pdv r) (psv r) := by
    simp [rowDelay, rowParse, pdv, psv, Row.get_set_same, Row.get_set_ne,
          delivCol_ne_schedCol, Ne.symm delivCol_ne_schedCol,
          delay_ne_delivCol, Ne.symm delay_ne_delivCol,
          delay_ne_schedCol, Ne.symm delay_ne_schedCol]
  rw [heq]
  exact Row.uniform_set _ _ _

/-- Parsed delivered-date values are fixed points of the parser. -/
theorem toDatetime?_pdv (r : Row) : toDatetime? (pdv r) = some (pdv r) := by
  unfold pdv
  exact toDatetime?_getD _

/-- Parsed scheduled-date values are fixed points of the parser. -/
theorem toDatetime?_psv (r : Row) : toDatetime? (psv r) = some (psv r) := by
  unfold psv
  exact toDatetime?_getD _

/-- Re-running the whole feature-engineering step on an already engineered
row changes nothing. -/
theorem engRow_engRow (r : Row) : engRow (engRow r) = engRow r := by
  have h1 : rowParse delivCol (engRow r) = engRow r := by
    unfold rowParse
    rw [get_engRow_deliv, toDatetime?_pdv]
    exact Row.set_of_uniform _ _ _ (uniform_engRow_deliv r)
  have h2 : rowParse schedCol (engRow r) = engRow r := by
    unfold rowParse
    rw [get_engRow_sched, toDatetime?_psv]
    exact Row.set_of_uniform _ _ _ (uniform_engRow_sched r)
  have h3 : rowDelay (engRow r) = engRow r := by
    unfold rowDelay
    rw [get_engRow_deliv, get_engRow_sched]
    exact Row.set_of_uniform _ _ _ (uniform_engRow_delay r)
  have h4 : rowLabel (engRow r) = engRow r := by
    unfold rowLabel
    rw [get_engRow_delay]
    exact Row.set_of_uniform _ _ _ (uniform_engRow_label r)
  show rowLabel (rowDelay (rowParse schedCol (rowParse delivCol (engRow r)))) = engRow r
  rw [h1, h2, h3, h4]

/- ### Table-level feature-engineering lemmas -/

theorem parseCol_ok_inv {t u : Table} {c : String}
    (h : parseCol t c = Except.ok u) :
    Table.hasCol t c = true ∧
    (∀ r ∈ t.rows, badCell? (Row.get r c) = none) ∧
    u = ⟨t.cols, t.rows.map (rowParse c)⟩ := by
  unfold parseCol at h
  by_cases hc : Table.hasCol t c = true
  · rw [if_pos hc] at h
    cases hf : t.rows.findSome? (fun r => badCell? (Row.get r c)) with
    | some v => rw [hf] at h; exact absurd h (by simp)
    | none =>
        rw [hf] at h
        refine ⟨hc, List.findSome?_eq_none_iff.1 hf, ?_⟩
        exact (Except.ok.inj h).symm
  · rw [if_neg hc] at h
    exact absurd h (by simp)

theorem parseCol_eq_ok {t : Table} {c : String}
    (hc : Table.hasCol t c = true)
    (hall : ∀ r ∈ t.rows, badCell? (Row.get r c) = none) :
    parseCol t c = Except.ok ⟨t.cols, t.rows.map (rowParse c)⟩ := by
  unfold parseCol
  rw [if_pos hc, List.findSome?_eq_none_iff.2 hall]

theorem parseCol_missing {t : Table} {c : String}
    (hc : Table.hasCol t c = false) :
    parseCol t c = Except.error (AppError.missingColumn c) := by
  unfold parseCol
  rw [if_neg (by simp [hc])]

/-- Inversion of a successful feature-engineering run: both date columns
were present, every date cell parsed, the column list gained the two
derived labels, and every row went through `engRow`. -/
theorem featureEngineer_ok_inv {t t' : Table}
    (h : featureEngineer t = Except.ok t') :
    Table.hasCol t delivCol = true ∧
    Table.hasCol t schedCol = true ∧
    (∀ r ∈ t.rows, badCell? (Row.get r delivCol) = none) ∧
    (∀ r ∈ t.rows, badCell? (Row.get r schedCol) = none) ∧
    t'.cols = addCol (addCol t.cols "delivery_delay") "Delay Label" ∧
    t'.rows = t.rows.map engRow := by
  unfold featureEngineer at h
  cases hp : parseCol t delivCol with
  | error e => rw [hp] at h; exact absurd h (by simp)
  | ok t1 =>
      rw [hp] at h
      dsimp only at h
      obtain ⟨hc1, hall1, ht1⟩ := parseCol_ok_inv hp
      cases hp2 : parseCol t1 schedCol with
      | error e => rw [hp2] at h; exact absurd h (by simp)
      | ok t2 =>
          rw [hp2] at h
          dsimp only at h
          obtain ⟨hc2, hall2, ht2⟩ := parseCol_ok_inv hp2
          have hc2' : Table.hasCol t schedCol = true := by
            rw [ht1] at hc2
            exact hc2
          have hall2' : ∀ r ∈ t.rows, badCell? (Row.get r schedCol) = none := by
            intro r hr
            have hm : rowParse delivCol r ∈ t1.rows := by
              rw [ht1]
              exact List.mem_map_of_mem _ hr
            have := hall2 _ hm
            rw [show Row.get (rowParse delivCol r) schedCol = Row.get r schedCol by
                  unfold rowParse
                  exact Row.get_set_ne _ _ _ _ (by decide : schedCol ≠ delivCol)] at this
            exact this
          refine ⟨hc1, hc2', hall1, hall2', ?_, ?_⟩
          · have hcols := congrArg Table.cols (Except.ok.inj h)
            rw [← hcols]
            simp [Table.setCol, ht2, ht1]
          · have hrows := congrArg Table.rows (Except.ok.inj h)
            rw [← hrows]
            simp only [Table.setCol, ht2, ht1, List.map_map]
            apply List.map_congr_left
            intro r hr
            rfl

/-- Forward form: with both date columns present and every date cell
parseable, feature engineering succeeds and produces exactly the
`engRow`-transformed rows. -/
theorem featureEngineer_eq_ok {t : Table}
    (hc1 : Table.hasCol t delivCol = true)
    (hc2 : Table.hasCol t schedCol = true)
    (hall1 : ∀ r ∈ t.rows, badCell? (Row.get r delivCol) = none)
    (hall2 : ∀ r ∈ t.rows, badCell? (Row.get r schedCol) = none) :
    featureEngineer t =
      Except.ok ⟨addCol (addCol t.cols "delivery_delay") "Delay Label",
                 t.rows.map engRow⟩ := by
  unfold featureEngineer
  rw [parseCol_eq_ok hc1 hall1]
  dsimp only
  have hc2' : Table.hasCol (⟨t.cols, t.rows.map (rowParse delivCol)⟩ : Table) schedCol = true := hc2
  have hall2' : ∀ r ∈ (⟨t.cols, t.rows.map (rowParse delivCol)⟩ : Table).rows,
      badCell? (Row.get r schedCol) = none := by
    intro r hr
    simp only [List.mem_map] at hr
    obtain ⟨r0, hr0, rfl⟩ := hr
    rw [show Row.get (rowParse delivCol r0) schedCol = Row.get r0 schedCol by
          unfold rowParse
          exact Row.get_set_ne _ _ _ _ (by decide : schedCol ≠ delivCol)]
    exact hall2 r0 hr0
  rw [parseCol_eq_ok hc2' hall2']
  dsimp only
  simp only [Table.setCol, List.map_map]
  refine congrArg Except.ok ?_
  refine congrArg (Table.mk _) ?_
  apply List.map_congr_left
  intro r hr
  rfl

theorem hasCol_iff {t : Table} {c : String} :
    Table.hasCol t c = true ↔ c ∈ t.cols := by
  simp [Table.hasCol]

theorem mem_addCol_self (cs : List String) (c : String) : c ∈ addCol cs c := by
  unfold addCol
  by_cases h : c ∈ cs
  · rw [if_pos h]; exact h
  · rw [if_neg h]; exact List.mem_append_right _ (by simp)

theorem mem_addCol (cs : List String) (c c' : String) (h : c ∈ cs) :
    c ∈ addCol cs c' := by
  unfold addCol
  by_cases h' : c' ∈ cs
  · rw [if_pos h']; exact h
  · rw [if_neg h']; exact List.mem_append_left _ h

theorem addCol_of_mem {cs : List String} {c : String} (h : c ∈ cs) :
    addCol cs c = cs := by
  unfold addCol
  rw [if_pos h]

/-- No cell of an engineered delivered-date column can fail to re-parse. -/
theorem badCell?_pdv (r : Row) : badCell? (pdv r) = none := by
  unfold badCell?
  rw [toDatetime?_pdv]

/-- No cell of an engineered scheduled-date column can fail to re-parse. -/
theorem badCell?_psv (r : Row) : badCell? (psv r) = none := by
  unfold badCell?
  rw [toDatetime?_psv]

/- ### Claim theorems -/

/-- The spec example table: one row scheduled 2021-01-01 / delivered
2021-01-03, one row with the dates reversed. -/
def tSpec : Table :=
  ⟨["Scheduled Delivery Date", "Delivered to Client Date"],
   [[("Scheduled Delivery Date", Cell.str "2021-01-01"),
     ("Delivered to Client Date", Cell.str "2021-01-03")],
    [("Scheduled Delivery Date", Cell.str "2021-01-03"),
     ("Delivered to Client Date", Cell.str "2021-01-01")]]⟩

/-- The engineered form of the spec example table. -/
def tSpecOut : Table :=
  match featureEngineer tSpec with
  | Except.ok u => u
  | Except.error _ => ⟨[], []⟩

/-- C1: for every row of the engineered table, `delivery_delay` is the
whole-day difference delivered minus scheduled (computed by `subDays` on
the parsed date cells of that same row); when both dates are present it is
the integer `a - b`, which may be negative. -/
theorem delivery_delay_is_day_difference (t t' : Table)
    (h : featureEngineer t = Except.ok t') :
    ∀ r ∈ t'.rows,
      Row.get r "delivery_delay" =
        subDays (Row.get r delivCol) (Row.get r schedCol) ∧
      ∀ a b : Int, Row.get r delivCol = Cell.date a →
        Row.get r schedCol = Cell.date b →
        Row.get r "delivery_delay" = Cell.int (a - b) := by
  obtain ⟨-, -, -, -, -, hrows⟩ := featureEngineer_ok_inv h
  intro r hr
  rw [hrows] at hr
  simp only [List.mem_map] at hr
  obtain ⟨r0, hr0, rfl⟩ := hr
  rw [get_engRow_delay, get_engRow_deliv, get_engRow_sched]
  refine ⟨rfl, ?_⟩
  intro a b ha hb
  rw [ha, hb]
  rfl

/-- Witness for C1 at the spec example: the forward row gets delay 2, the
reversed row gets delay -2. -/
theorem delivery_delay_is_day_difference_witness :
    featureEngineer tSpec = Except.ok tSpecOut ∧
    Row.get (tSpecOut.rows.headD []) "delivery_delay" = Cell.int 2 ∧
    Row.get (tSpecOut.rows.getLastD []) "delivery_delay" = Cell.int (-2) ∧
    Row.get (tSpecOut.rows.headD []) "delivery_delay" =
      subDays (Row.get (tSpecOut.rows.headD []) delivCol)
        (Row.get (tSpecOut.rows.headD []) schedCol) := by
  refine ⟨by decide, by decide, by decide, ?_⟩
  exact (delivery_delay_is_day_difference tSpec tSpecOut (by decide)
    (tSpecOut.rows.headD []) (by decide)).1

/-- C2: for every row of the engineered table, the label is one of the two
strings, it is Early/On-Time exactly when the script's `d <= 0` comparison
holds of the delay cell, and for an integer delay `n` it is Early/On-Time
iff `n ≤ 0` and Delayed iff `0 < n`. -/
theorem delay_label_iff_nonpositive (t t' : Table)
    (h : featureEngineer t = Except.ok t') :
    ∀ r ∈ t'.rows,
      (Row.get r "Delay Label" = Cell.str "Early/On-Time" ∨
       Row.get r "Delay Label" = Cell.str "Delayed") ∧
      (Row.get r "Delay Label" = Cell.str "Early/On-Time" ↔
        cellLe0 (Row.get r "delivery_delay") = true) ∧
      ∀ n : Int, Row.get r "delivery_delay" = Cell.int n →
        (Row.get r "Delay Label" = Cell.str "Early/On-Time" ↔ n ≤ 0) ∧
        (Row.get r "Delay Label" = Cell.str "Delayed" ↔ 0 < n) := by
  obtain ⟨-, -, -, -, -, hrows⟩ := featureEngineer_ok_inv h
  intro r hr
  rw [hrows] at hr
  simp only [List.mem_map] at hr
  obtain ⟨r0, hr0, rfl⟩ := hr
  rw [get_engRow_label, get_engRow_delay]
  by_cases hc : cellLe0 (subDays (pdv r0) (psv r0)) = true
  · simp only [labelOf, if_pos hc, hc]
    refine ⟨Or.inl (by simp), by simp, ?_⟩
    intro n hn
    rw [hn] at hc
    simp only [cellLe0, decide_eq_true_eq] at hc
    constructor
    · simp [hc]
    · constructor
      · intro hlab
        exact absurd hlab (by simp)
      · intro hpos
        exact absurd hc (not_le.2 hpos)
  · simp only [labelOf, if_neg hc]
    simp only [Bool.not_eq_true] at hc
    refine ⟨Or.inr (by simp), by simp [hc], ?_⟩
    intro n hn
    rw [hn] at hc
    simp only [cellLe0, decide_eq_false_iff_not, not_le] at hc
    constructor
    · constructor
      · intro hlab
        exact absurd hlab (by simp)
      · intro hle
        exact absurd hle (not_le.2 hc)
    · simp [hc]

/-- Witness for C2 at the spec example: the forward row is labelled
Delayed, the reversed row Early/On-Time, matching the sign of the delay. -/
theorem delay_label_iff_nonpositive_witness :
    featureEngineer tSpec = Except.ok tSpecOut ∧
    Row.get (tSpecOut.rows.headD []) "Delay Label" = Cell.str "Delayed" ∧
    Row.get (tSpecOut.rows.getLastD []) "Delay Label" = Cell.str "Early/On-Time" ∧
    (Row.get (tSpecOut.rows.headD []) "Delay Label" = Cell.str "Early/On-Time" ↔
      cellLe0 (Row.get (tSpecOut.rows.headD []) "delivery_delay") = true) := by
  refine ⟨by decide, by decide, by decide, ?_⟩
  exact ((delay_label_iff_nonpositive tSpec tSpecOut (by decide)
    (tSpecOut.rows.headD []) (by decide)).2).1

/-- C9: feature engineering is idempotent: re-running the whole block
(date parsing, delay, label) on its own output reproduces that output
exactly. -/
theorem feature_engineering_idempotent (t t' : Table)
    (h : featureEngineer t = Except.ok t') :
    featureEngineer t' = Except.ok t' := by
  obtain ⟨hc1, hc2, hall1, hall2, hcols, hrows⟩ := featureEngineer_ok_inv h
  have hc1' : Table.hasCol t' delivCol = true := by
    rw [hasCol_iff, hcols]
    exact mem_addCol _ _ _ (mem_addCol _ _ _ (hasCol_iff.1 hc1))
  have hc2' : Table.hasCol t' schedCol = true := by
    rw [hasCol_iff, hcols]
    exact mem_addCol _ _ _ (mem_addCol _ _ _ (hasCol_iff.1 hc2))
  have hall1' : ∀ r ∈ t'.rows, badCell? (Row.get r delivCol) = none := by
    intro r hr
    rw [hrows] at hr
    simp only [List.mem_map] at hr
    obtain ⟨r0, hr0, rfl⟩ := hr
    rw [get_engRow_deliv]
    exact badCell?_pdv r0
  have hall2' : ∀ r ∈ t'.rows, badCell? (Row.get r schedCol) = none := by
    intro r hr
    rw [hrows] at hr
    simp only [List.mem_map] at hr
    obtain ⟨r0, hr0, rfl⟩ := hr
    rw [get_engRow_sched]
    exact badCell?_psv r0
  rw [featureEngineer_eq_ok hc1' hc2' hall1' hall2']
  refine congrArg Except.ok ?_
  have hcols' : addCol (addCol t'.cols "delivery_delay") "Delay Label" = t'.cols := by
    have hd : "delivery_delay" ∈ t'.cols := by
      rw [hcols]
      exact mem_addCol _ _ _ (mem_addCol_self _ _)
    have hl : "Delay Label" ∈ t'.cols := by
      rw [hcols]
      exact mem_addCol_self _ _
    rw [addCol_of_mem hd, addCol_of_mem hl]
  have hrows' : t'.rows.map engRow = t'.rows := by
    rw [hrows, List.map_map]
    apply List.map_congr_left
    intro r hr
    exact engRow_engRow r
  cases t' with
  | mk cols rows =>
      simp only at hcols' hrows'
      rw [hcols', hrows']

/-- Witness for C9: re-engineering the engineered spec example is a
no-op. -/
theorem feature_engineering_idempotent_witness :
    featureEngineer tSpecOut = Except.ok tSpecOut :=
  feature_engineering_idempotent tSpec tSpecOut (by decide)

/-- C8 counterexample: the claim says every pre-existing column, the two
date columns included, keeps its original values; but on the spec example
the delivered-date cell of the first row is changed by the in-place
`pd.to_datetime` parse (a string before, a datetime after). -/
theorem date_columns_changed_cex :
    featureEngineer tSpec = Except.ok tSpecOut ∧
    Row.get (tSpec.rows.headD []) delivCol = Cell.str "2021-01-03" ∧
    Row.get (tSpecOut.rows.headD []) delivCol ≠ Cell.str "2021-01-03" := by
  refine ⟨by decide, by decide, by decide⟩

/-- C8 amended: feature engineering appends exactly the two derived
columns (when not already present), leaves every pre-existing column other
than the two date columns valuewise unchanged in every row, and replaces
the two date columns by their parsed date values. -/
theorem feature_engineer_frame (t t' : Table)
    (h : featureEngineer t = Except.ok t')
    (hd : Table.hasCol t "delivery_delay" = false)
    (hl : Table.hasCol t "Delay Label" = false) :
    t'.cols = t.cols ++ ["delivery_delay", "Delay Label"] ∧
    t'.rows = t.rows.map engRow ∧
    (∀ r ∈ t.rows, ∀ c, c ≠ delivCol → c ≠ schedCol →
      c ≠ "delivery_delay" → c ≠ "Delay Label" →
      Row.get (engRow r) c = Row.get r c) ∧
    (∀ r ∈ t.rows,
      Row.get (engRow r) delivCol = (toDatetime? (Row.get r delivCol)).getD Cell.na ∧
      Row.get (engRow r) schedCol = (toDatetime? (Row.get r schedCol)).getD Cell.na) := by
  obtain ⟨hc1, hc2, hall1, hall2, hcols, hrows⟩ := featureEngineer_ok_inv h
  have hdmem : "delivery_delay" ∉ t.cols := by
    intro hmem
    rw [← hasCol_iff] at hmem
    rw [hd] at hmem
    exact absurd hmem (by simp)
  have hlmem : "Delay Label" ∉ t.cols := by
    intro hmem
    rw [← hasCol_iff] at hmem
    rw [hl] at hmem
    exact absurd hmem (by simp)
  refine ⟨?_, hrows, ?_, ?_⟩
  · rw [hcols]
    unfold addCol
    rw [if_neg hdmem]
    rw [if_neg (by
      intro hmem
      rw [List.mem_append] at hmem
      rcases hmem with hmem | hmem
      · exact hlmem hmem
      · simp at hmem)]
    simp
  · intro r hr c h1 h2 h3 h4
    unfold engRow rowLabel rowDelay rowParse
    rw [Row.get_set_ne _ _ _ _ h4, Row.get_set_ne _ _ _ _ h3,
        Row.get_set_ne _ _ _ _ h2, Row.get_set_ne _ _ _ _ h1]
  · intro r hr
    exact ⟨get_engRow_deliv r, get_engRow_sched r⟩

/-- Witness for the amended C8 at the spec example: the unengineered table
has no derived columns, engineering appends exactly the two, and the date
columns now hold the parsed values. -/
theorem feature_engineer_frame_witness :
    Table.hasCol tSpec "delivery_delay" = false ∧
    Table.hasCol tSpec "Delay Label" = false ∧
    tSpecOut.cols = tSpec.cols ++ ["delivery_delay", "Delay Label"] := by
  refine ⟨by decide, by decide, ?_⟩
  exact (feature_engineer_frame tSpec tSpecOut (by decide) (by decide) (by decide)).1

theorem parseCol_error_inv {t : Table} {c : String} {e : AppError}
    (hc : Table.hasCol t c = true) (h : parseCol t c = Except.error e) :
    ∃ v, e = AppError.dateParse v := by
  unfold parseCol at h
  rw [if_pos hc] at h
  cases hf : t.rows.findSome? (fun r => badCell? (Row.get r c)) with
  | some v =>
      rw [hf] at h
      exact ⟨v, (Except.error.inj h).symm⟩
  | none =>
      rw [hf] at h
      exact absurd h (by simp)

/-- A table with both date columns whose only row has a missing
(unpopulated) delivered date. -/
def tMiss : Table :=
  ⟨["Scheduled Delivery Date", "Delivered to Client Date"],
   [[("Scheduled Delivery Date", Cell.str "2021-01-01"),
     ("Delivered to Client Date", Cell.na)]]⟩

/-- The engineered form of the missing-date table. -/
def tMissOut : Table :=
  match featureEngineer tMiss with
  | Except.ok u => u
  | Except.error _ => ⟨[], []⟩

/-- C3 counterexample: a dataset with an unpopulated date field is not
rejected: feature engineering succeeds (`pd.to_datetime` turns the missing
value into `NaT` without raising), and that row receives a
`delivery_delay` (`NaN`) and a `Delay Label` (`"Delayed"`, since
`NaN <= 0` is false). -/
theorem missing_date_not_rejected_cex :
    featureEngineer tMiss = Except.ok tMissOut ∧
    Row.get (tMissOut.rows.headD []) delivCol = Cell.na ∧
    Row.get (tMissOut.rows.headD []) "delivery_delay" = Cell.na ∧
    Row.get (tMissOut.rows.headD []) "Delay Label" = Cell.str "Delayed" := by
  refine ⟨by decide, by decide, by decide, by decide⟩

/-- C3 amended: a dataset containing an unparseable date value (with both
date columns present) is rejected whole, up front: feature engineering
raises a date-parse error and every page render shows only the raised
exception, so no derived columns or charts are produced. -/
theorem unparseable_date_rejects_dataset (t : Table)
    (hc1 : Table.hasCol t delivCol = true)
    (hc2 : Table.hasCol t schedCol = true)
    (hbad : ∃ r ∈ t.rows, badCell? (Row.get r delivCol) ≠ none ∨
      badCell? (Row.get r schedCol) ≠ none) :
    ∃ v, featureEngineer t = Except.error (AppError.dateParse v) ∧
      ∀ page, runApp page (some t) = [RItem.exn (PyExn.badDateValue v)] := by
  obtain ⟨r, hr, hor⟩ := hbad
  have main : ∃ v, featureEngineer t = Except.error (AppError.dateParse v) := by
    unfold featureEngineer
    cases hp : parseCol t delivCol with
    | error e =>
        obtain ⟨v, rfl⟩ := parseCol_error_inv hc1 hp
        exact ⟨v, rfl⟩
    | ok t1 =>
        dsimp only
        obtain ⟨-, hall1, ht1⟩ := parseCol_ok_inv hp
        have hbad2 : badCell? (Row.get r schedCol) ≠ none := by
          rcases hor with hor | hor
          · exact absurd (hall1 r hr) hor
          · exact hor
        cases hp2 : parseCol t1 schedCol with
        | error e =>
            have hc2' : Table.hasCol t1 schedCol = true := by
              rw [ht1]
              exact hc2
            obtain ⟨v, rfl⟩ := parseCol_error_inv hc2' hp2
            exact ⟨v, rfl⟩
        | ok t2 =>
            obtain ⟨-, hall2, -⟩ := parseCol_ok_inv hp2
            have hm : rowParse delivCol r ∈ t1.rows := by
              rw [ht1]
              exact List.mem_map_of_mem _ hr
            have := hall2 _ hm
            rw [show Row.get (rowParse delivCol r) schedCol = Row.get r schedCol by
                  unfold rowParse
                  exact Row.get_set_ne _ _ _ _ (by decide : schedCol ≠ delivCol)] at this
            exact absurd this hbad2
  obtain ⟨v, hv⟩ := main
  refine ⟨v, hv, ?_⟩
  intro page
  unfold runApp
  dsimp only
  rw [hv]
  rfl

/-- A table with both date columns whose only row carries an unparseable
delivered-date string. -/
def tBadDate : Table :=
  ⟨["Scheduled Delivery Date", "Delivered to Client Date"],
   [[("Scheduled Delivery Date", Cell.str "2021-01-01"),
     ("Delivered to Client Date", Cell.str "not-a-date")]]⟩

/-- Witness for the amended C3 at a concrete bad-date table. -/
theorem unparseable_date_rejects_dataset_witness :
    Table.hasCol tBadDate delivCol = true ∧
    Table.hasCol tBadDate schedCol = true ∧
    ∃ v, featureEngineer tBadDate = Except.error (AppError.dateParse v) ∧
      ∀ page, runApp page (some tBadDate) = [RItem.exn (PyExn.badDateValue v)] :=
  ⟨by decide, by decide,
   unparseable_date_rejects_dataset tBadDate (by decide) (by decide)
     ⟨(tBadDate.rows.headD []), by decide, Or.inl (by decide)⟩⟩

/-- Is the item a Streamlit error box? -/
def isErrorBox : RItem → Bool
  | RItem.errorBox _ => true
  | _ => false

theorem featureEngineer_missing_deliv {t : Table}
    (hd : Table.hasCol t delivCol = false) :
    featureEngineer t = Except.error (AppError.missingColumn delivCol) := by
  unfold featureEngineer
  rw [parseCol_missing hd]

theorem featureEngineer_missing_sched {t : Table}
    (hd : Table.hasCol t delivCol = true)
    (hs : Table.hasCol t schedCol = false)
    (hall : ∀ r ∈ t.rows, badCell? (Row.get r delivCol) = none) :
    featureEngineer t = Except.error (AppError.missingColumn schedCol) := by
  unfold featureEngineer
  rw [parseCol_eq_ok hd hall]
  dsimp only
  rw [parseCol_missing (show Table.hasCol
    (⟨t.cols, t.rows.map (rowParse delivCol)⟩ : Table) schedCol = false from hs)]

theorem featureEngineer_error_of_missing {t : Table}
    (h : Table.hasCol t delivCol = false ∨ Table.hasCol t schedCol = false) :
    ∃ e, featureEngineer t = Except.error e := by
  rcases h with hd | hs
  · exact ⟨_, featureEngineer_missing_deliv hd⟩
  · cases hp : parseCol t delivCol with
    | error e =>
        refine ⟨e, ?_⟩
        unfold featureEngineer
        rw [hp]
    | ok t1 =>
        obtain ⟨-, -, ht1⟩ := parseCol_ok_inv hp
        refine ⟨AppError.missingColumn schedCol, ?_⟩
        unfold featureEngineer
        rw [hp]
        dsimp only
        have hs1 : Table.hasCol t1 schedCol = false := by
          rw [ht1]
          exact hs
        rw [parseCol_missing hs1]

/-- A table lacking the scheduled-date column whose delivered-date value
cannot be parsed. -/
def tBadC4 : Table :=
  ⟨["Delivered to Client Date"], [[("Delivered to Client Date", Cell.str "nope")]]⟩

/-- C4 counterexample: this dataset lacks the required scheduled-date
column, yet the run halts with the raised date-parse exception (the
delivered column is processed, presence check and parse, before the
scheduled column is ever checked), so no user-visible error box naming the
missing column is shown. -/
theorem missing_column_error_cex :
    Table.hasCol tBadC4 schedCol = false ∧
    runApp "Welcome" (some tBadC4) = [RItem.exn (PyExn.badDateValue "nope")] ∧
    (runApp "Welcome" (some tBadC4)).all (fun i => !(isErrorBox i)) = true := by
  refine ⟨by decide, by decide, by decide⟩

/-- C4 amended: a dataset lacking a required date column always halts the
render with a single halt item and no chart; the halt is the error box
naming the delivered column when that column is missing, and the error box
naming the scheduled column when the delivered column is present and fully
parseable; but when the delivered column contains an unparseable value and
the scheduled column is missing, the halt is the raised date-parse
exception instead of an error naming the column. -/
theorem missing_column_halts (t : Table) (page : String)
    (h : Table.hasCol t delivCol = false ∨ Table.hasCol t schedCol = false) :
    (∃ e, runApp page (some t) = [appHalt e]) ∧
    (∀ ch, RItem.chart ch ∉ runApp page (some t)) ∧
    (Table.hasCol t delivCol = false →
      runApp page (some t) =
        [RItem.errorBox (String.append "❌ Missing column: " delivCol)]) ∧
    (Table.hasCol t delivCol = true → Table.hasCol t schedCol = false →
      (∀ r ∈ t.rows, badCell? (Row.get r delivCol) = none) →
      runApp page (some t) =
        [RItem.errorBox (String.append "❌ Missing column: " schedCol)]) := by
  obtain ⟨e, he⟩ := featureEngineer_error_of_missing h
  have hrun : runApp page (some t) = [appHalt e] := by
    unfold runApp
    dsimp only
    rw [he]
  refine ⟨⟨e, hrun⟩, ?_, ?_, ?_⟩
  · intro ch
    rw [hrun]
    cases e <;> simp [appHalt]
  · intro hd
    rw [featureEngineer_missing_deliv hd] at he
    rw [hrun, ← Except.error.inj he]
    rfl
  · intro hd hs hall
    rw [featureEngineer_missing_sched hd hs hall] at he
    rw [hrun, ← Except.error.inj he]
    rfl

/-- A table lacking only the scheduled-date column, with a parseable
delivered date. -/
def tNoSched : Table :=
  ⟨["Delivered to Client Date"],
   [[("Delivered to Client Date", Cell.str "2021-01-01")]]⟩

/-- Witness for the amended C4: uploading a table without the scheduled
column (and with parseable delivered dates) shows exactly the error box
naming it, with no chart. -/
theorem missing_column_halts_witness :
    runApp "Top Contributors" (some tNoSched) =
      [RItem.errorBox (String.append "❌ Missing column: " schedCol)] :=
  (missing_column_halts tNoSched "Top Contributors"
    (Or.inr (by decide))).2.2.2 (by decide) (by decide) (by decide)

/-- C7: with no dataset uploaded, the Welcome and Conclusion pages render
their static text, while the two data-driven pages show the upload warning
and render no charts. -/
theorem pages_without_dataset :
    runApp "Welcome" none = welcomeItems ∧
    runApp "Conclusion & Insights" none = conclusionItems ∧
    runApp "Delay & Pricing Patterns" none =
      [RItem.title "Delay & Pricing Patterns", RItem.warning uploadWarn] ∧
    runApp "Top Contributors" none =
      [RItem.title "Top Contributors to Delay & Cost", RItem.warning uploadWarn] ∧
    (runApp "Delay & Pricing Patterns" none).all (fun i => !(isChart i)) = true ∧
    (runApp "Top Contributors" none).all (fun i => !(isChart i)) = true := by
  refine ⟨by decide, by decide, by decide, by decide, by decide, by decide⟩

/-- C6: when the grouping column of one of the Top Contributors charts is
absent, that aggregation and chart are skipped wholesale, with no raised
error: the page output is exactly the title, the markdown, and whatever
the other (guarded) block renders. -/
theorem absent_grouping_column_skips (t : Table) :
    (Table.hasCol t "Vendor" = false →
      topContribItems (some t) =
        RItem.title "Top Contributors to Delay & Cost" ::
        RItem.markdown contribMd :: blocks [managerBlock t] ∧
      ∀ gs, RItem.chart (Chart.bar "Vendor" gs) ∉ topContribItems (some t)) ∧
    (Table.hasCol t "Managed By" = false →
      topContribItems (some t) =
        RItem.title "Top Contributors to Delay & Cost" ::
        RItem.markdown contribMd :: blocks [vendorBlock t] ∧
      ∀ gs, RItem.chart (Chart.bar "Managed By" gs) ∉ topContribItems (some t)) := by
  constructor
  · intro hv
    have hvb : vendorBlock t = Except.ok [] := by
      unfold vendorBlock
      rw [if_neg (by simp [hv])]
    have heq : topContribItems (some t) =
        RItem.title "Top Contributors to Delay & Cost" ::
        RItem.markdown contribMd :: blocks [managerBlock t] := by
      unfold topContribItems
      dsimp only
      rw [hvb]
      rfl
    refine ⟨heq, ?_⟩
    intro gs
    rw [heq]
    simp only [List.mem_cons]
    push_neg
    refine ⟨by simp, by simp, ?_⟩
    unfold managerBlock
    by_cases hm : Table.hasCol t "Managed By" = true
    · rw [if_pos hm]
      cases ha : topByDelay t "Managed By" with
      | error e => simp [blocks, Except.map]
      | ok gs2 => simp [blocks, Except.map]
    · rw [if_neg hm]
      simp [blocks]
  · intro hm
    have hmb : managerBlock t = Except.ok [] := by
      unfold managerBlock
      rw [if_neg (by simp [hm])]
    have hblocks : blocks [vendorBlock t, managerBlock t] = blocks [vendorBlock t] := by
      rw [hmb]
      cases hv : vendorBlock t with
      | error e => simp [blocks]
      | ok xs => simp [blocks]
    have heq : topContribItems (some t) =
        RItem.title "Top Contributors to Delay & Cost" ::
        RItem.markdown contribMd :: blocks [vendorBlock t] := by
      unfold topContribItems
      dsimp only
      rw [← hblocks]
    refine ⟨heq, ?_⟩
    intro gs
    rw [heq]
    simp only [List.mem_cons]
    push_neg
    refine ⟨by simp, by simp, ?_⟩
    unfold vendorBlock
    by_cases hv : Table.hasCol t "Vendor" = true
    · rw [if_pos hv]
      cases ha : topByDelay t "Vendor" with
      | error e => simp [blocks, Except.map]
      | ok gs2 => simp [blocks, Except.map]
    · rw [if_neg hv]
      simp [blocks]

/-- A table with a manager column and metrics but no vendor column. -/
def tNoVendor : Table :=
  ⟨["Managed By", "delivery_delay", "Pack Price", "Line Item Value"],
   [[("Managed By", Cell.str "M1"), ("delivery_delay", Cell.int 3),
     ("Pack Price", Cell.num 5), ("Line Item Value", Cell.num 10)]]⟩

/-- Witness for C6: with no Vendor column the page is exactly title,
markdown and the manager chart block. -/
theorem absent_grouping_column_skips_witness :
    topContribItems (some tNoVendor) =
      RItem.title "Top Contributors to Delay & Cost" ::
      RItem.markdown contribMd :: blocks [managerBlock tNoVendor] :=
  ((absent_grouping_column_skips tNoVendor).1 (by decide)).1

/-- An engineered table with vendors and both price metrics. -/
def tAgg : Table :=
  ⟨["Scheduled Delivery Date", "Delivered to Client Date", "Vendor",
    "Pack Price", "Line Item Value"],
   [[("Scheduled Delivery Date", Cell.str "2021-01-01"),
     ("Delivered to Client Date", Cell.str "2021-01-03"),
     ("Vendor", Cell.str "A"), ("Pack Price", Cell.num 5),
     ("Line Item Value", Cell.num 100)],
    [("Scheduled Delivery Date", Cell.str "2021-01-03"),
     ("Delivered to Client Date", Cell.str "2021-01-01"),
     ("Vendor", Cell.str "B"), ("Pack Price", Cell.num 7),
     ("Line Item Value", Cell.num 50)],
    [("Scheduled Delivery Date", Cell.str "2021-01-01"),
     ("Delivered to Client Date", Cell.str "2021-01-06"),
     ("Vendor", Cell.str "A"), ("Pack Price", Cell.num 9),
     ("Line Item Value", Cell.num 20)]]⟩

/-- The engineered form of the vendor table. -/
def tAggOut : Table :=
  match featureEngineer tAgg with
  | Except.ok u => u
  | Except.error _ => ⟨[], []⟩

/-- C5: on an engineered table with a Vendor column (and the two price
metric columns the aggregation selects), the vendor aggregation succeeds
and returns at most ten groups, ordered by mean delay descending, where
each group carries the arithmetic mean of `delivery_delay`, `Pack Price`
and `Line Item Value` over exactly that vendor's rows. -/
theorem vendor_aggregation_top10_sorted (t0 t : Table)
    (h : featureEngineer t0 = Except.ok t)
    (hv : Table.hasCol t "Vendor" = true)
    (hp : Table.hasCol t "Pack Price" = true)
    (hl : Table.hasCol t "Line Item Value" = true) :
    ∃ gs, topByDelay t "Vendor" = Except.ok gs ∧
      gs.length ≤ 10 ∧
      List.Sorted gOrd gs ∧
      ∀ g ∈ gs,
        g.delay = meanCells
          ((dimRows t "Vendor" g.key).map (fun r => Row.get r "delivery_delay")) ∧
        g.packPrice = meanCells
          ((dimRows t "Vendor" g.key).map (fun r => Row.get r "Pack Price")) ∧
        g.lineItemValue = meanCells
          ((dimRows t "Vendor" g.key).map (fun r => Row.get r "Line Item Value")) := by
  have hdd : Table.hasCol t "delivery_delay" = true := by
    obtain ⟨-, -, -, -, hcols, -⟩ := featureEngineer_ok_inv h
    rw [hasCol_iff, hcols]
    exact mem_addCol _ _ _ (mem_addCol_self _ _)
  have hfind : metricCols.find? (fun m => decide (Table.hasCol t m = false)) = none := by
    rw [List.find?_eq_none]
    intro x hx
    simp only [metricCols, List.mem_cons, List.not_mem_nil, or_false] at hx
    rcases hx with rfl | rfl | rfl
    · simp [hdd]
    · simp [hp]
    · simp [hl]
  unfold topByDelay
  rw [if_neg (by simp [hv])]
  rw [hfind]
  dsimp only
  refine ⟨_, rfl, ?_, ?_, ?_⟩
  · rw [List.length_take]
    exact min_le_left _ _
  · exact List.Pairwise.sublist (List.take_sublist _ _)
      (List.sorted_insertionSort gOrd _)
  · intro g hg
    have hg2 : g ∈ List.insertionSort gOrd
        ((keyList (t.rows.map (fun r => Row.get r "Vendor"))).map
          (mkGroup t "Vendor")) := List.take_subset _ _ hg
    have hg3 : g ∈ (keyList (t.rows.map (fun r => Row.get r "Vendor"))).map
        (mkGroup t "Vendor") :=
      (List.perm_insertionSort gOrd _).mem_iff.1 hg2
    simp only [List.mem_map] at hg3
    obtain ⟨k, hk, rfl⟩ := hg3
    exact ⟨rfl, rfl, rfl⟩

/-- Witness for C5: the concrete vendor table engineers successfully and
its aggregation satisfies all the stated properties. -/
theorem vendor_aggregation_top10_sorted_witness :
    featureEngineer tAgg = Except.ok tAggOut ∧
    ∃ gs, topByDelay tAggOut "Vendor" = Except.ok gs ∧
      gs.length ≤ 10 ∧
      List.Sorted gOrd gs ∧
      ∀ g ∈ gs,
        g.delay = meanCells
          ((dimRows tAggOut "Vendor" g.key).map (fun r => Row.get r "delivery_delay")) ∧
        g.packPrice = meanCells
          ((dimRows tAggOut "Vendor" g.key).map (fun r => Row.get r "Pack Price")) ∧
        g.lineItemValue = meanCells
          ((dimRows tAggOut "Vendor" g.key).map (fun r => Row.get r "Line Item Value")) :=
  ⟨by decide,
   vendor_aggregation_top10_sorted tAgg tAggOut (by decide) (by decide)
     (by decide) (by decide)⟩

/-- C10: only the Shipment Mode / Pack Price box plot is behind a
column-existence check; the Line Item Value box plot is built
unconditionally, so an uploaded dataset with both date columns but without
a `Line Item Value` column (and no `Shipment Mode` column, so the guarded
block is skipped) renders the delay box plot and then halts on the raised
missing-column exception instead of degrading silently. -/
theorem line_item_value_box_unguarded (t0 t : Table)
    (h : featureEngineer t0 = Except.ok t)
    (hm : Table.hasCol t "Shipment Mode" = false)
    (hl : Table.hasCol t "Line Item Value" = false) :
    runApp "Delay & Pricing Patterns" (some t0) =
      [RItem.title "Delay & Pricing Patterns", RItem.markdown kpiMd,
       RItem.chart (Chart.box "Delay Label" "delivery_delay" none t),
       RItem.exn (PyExn.colNotFound "Line Item Value")] := by
  have hdd : Table.hasCol t "delivery_delay" = true := by
    obtain ⟨-, -, -, -, hcols, -⟩ := featureEngineer_ok_inv h
    rw [hasCol_iff, hcols]
    exact mem_addCol _ _ _ (mem_addCol_self _ _)
  have hlbl : Table.hasCol t "Delay Label" = true := by
    obtain ⟨-, -, -, -, hcols, -⟩ := featureEngineer_ok_inv h
    rw [hasCol_iff, hcols]
    exact mem_addCol_self _ _
  have h1 : pxBox t "Delay Label" "delivery_delay" none =
      Except.ok (Chart.box "Delay Label" "delivery_delay" none t) := by
    unfold pxBox
    rw [if_neg (by simp [hlbl]), if_neg (by simp [hdd])]
  have h2 : packBlock t = Except.ok [] := by
    unfold packBlock
    rw [if_neg (by simp [hm])]
  have h3 : pxBox t "Delay Label" "Line Item Value" (some "Delay Label") =
      Except.error (PyExn.colNotFound "Line Item Value") := by
    unfold pxBox
    rw [if_neg (by simp [hlbl]), if_pos (by simp [hl])]
  unfold runApp
  dsimp only
  rw [h]
  dsimp only
  unfold pageItems
  rw [if_neg (by decide), if_pos rfl, if_neg (by decide), if_neg (by decide)]
  unfold delayPricingItems
  dsimp only
  rw [h1, h2, h3]
  simp [blocks, chartBlock, Except.map]

/-- Witness for C10: the spec example table has both date columns, no
Shipment Mode and no Line Item Value; its Delay & Pricing page renders the
delay chart then raises on the missing column. -/
theorem line_item_value_box_unguarded_witness :
    runApp "Delay & Pricing Patterns" (some tSpec) =
      [RItem.title "Delay & Pricing Patterns", RItem.markdown kpiMd,
       RItem.chart (Chart.box "Delay Label" "delivery_delay" none tSpecOut),
       RItem.exn (PyExn.colNotFound "Line Item Value")] :=
  line_item_value_box_unguarded tSpec tSpecOut (by decide) (by decide) (by decide)
